import Mathlib

/-!
Shallow embedding of the hybrid search-and-rank pipeline of `src/app.py`
(kaseysteinbrinck-code/hackathon-sinch-connector).

The embedded code is `load_data` (lines 113-120) and `search_logic`
(lines 134-185).  A pandas `DataFrame` row is a `Record`; the pandas row
index (`df.index`) is carried explicitly in the `idx` field, and the list
order is the storage order of the rows.  Strings are modelled over their
character lists; Python's `str.lower` and the regexes involved
(`\W+`, `\b...\b`, `\d+`) are modelled for ASCII text.
-/

namespace SinchConnector

/-- One row of the employee DataFrame.  `idx` is the pandas row index
(`df.index` value of the row); the seven text columns are those that
`load_data` normalizes to strings. -/
structure Record where
  idx : Nat
  name : String
  jobTitle : String
  bio : String
  skills : String
  expertise : String
  email : String
  department : String
deriving DecidableEq

/-- Python word character (regex `\w` = `[a-zA-Z0-9_]` on ASCII text);
its complement is `\W`, the split/boundary class used by `search_logic`. -/
def isWordChar (c : Char) : Bool := c.isAlphanum || c == '_'

/-- Models Python `str.lower()` on ASCII text, as a character list. -/
def py_lower (s : String) : List Char := s.data.map Char.toLower

/-- Models `re.split(r'\W+', s)` (line 148): the pieces of `s` between
maximal runs of non-word characters.  A leading (trailing) run of
non-word characters contributes a leading (trailing) empty piece, and
`re.split` of the empty string is `['']`. -/
def splitRuns : List Char → List (List Char)
  | [] => [[]]
  | c :: cs =>
    if isWordChar c then
      match splitRuns cs with
      | t :: ts => (c :: t) :: ts
      | [] => [[c]]
    else
      match cs with
      | [] => [[], []]
      | d :: _ => if isWordChar d then [] :: splitRuns cs else splitRuns cs

/-- Maximal runs of word characters of a string, in order.  This is the
specification-side reading of "splits on every run of non-word
characters and discards empty tokens" (spec section 4.2), written
independently of `splitRuns` so the two can be compared. -/
def wordRuns : List Char → List (List Char)
  | [] => []
  | c :: cs =>
    if isWordChar c then
      match cs with
      | [] => [[c]]
      | d :: _ =>
        if isWordChar d then
          match wordRuns cs with
          | t :: ts => (c :: t) :: ts
          | [] => [[c]]
        else [c] :: wordRuns cs
    else wordRuns cs

/-- The stop-word set of `search_logic` (lines 143-147), in source order. -/
def stop_words : List String :=
  ["who", "can", "help", "with", "questions", "about", "find", "me", "a", "an", "the",
   "i", "have", "question", "whether", "sinch", "offers", "solution", "solutions",
   "compliant", "compliance", "looking", "need", "know", "expert"]

/-- Line 148: `keywords = [w for w in re.split(r'\W+', query.lower()) if w and w not in stop_words]`. -/
def tokenize (query : String) : List String :=
  ((splitRuns (py_lower query)).map (fun w => String.mk w)).filter
    (fun w => w != "" && !(stop_words.contains w))

/-- Specification-side tokenizer (spec section 4.2): the maximal
word-character runs of the lowered query, in order, minus stop words. -/
def tokenize_spec (query : String) : List String :=
  ((wordRuns (py_lower query)).map (fun w => String.mk w)).filter
    (fun w => !(stop_words.contains w))

/-- Scan for a whole-word occurrence of `kw`.  The flag records whether the
current position sits at a `\b` boundary on the left (start of string or
preceded by a non-word character); a hit also needs `kw` to be followed by
the end of the string or a non-word character. -/
def startsWithBoundary : List Char → List Char → Bool
  | [], [] => true
  | [], c :: _ => !(isWordChar c)
  | _ :: _, [] => false
  | k :: ks, c :: cs => k == c && startsWithBoundary ks cs

/-- Left-to-right scan used by `str_contains_word`. -/
def findWord (kw : List Char) : Bool → List Char → Bool
  | b, [] => b && startsWithBoundary kw []
  | b, c :: cs =>
    (b && startsWithBoundary kw (c :: cs)) || findWord kw (!(isWordChar c)) cs

/-- Models `field.str.contains(r'\b' + re.escape(kw) + r'\b', case=False, regex=True)`
(lines 156-161) for a keyword made of word characters: `re.escape` is the
identity on such keywords, `case=False` is modelled by lowering both sides,
and `\b` by the boundary flags of the scan. -/
def str_contains_word (field : String) (kw : String) : Bool :=
  findWord (kw.data.map Char.toLower) true (py_lower field)

/-- Lines 154-161: the score column.  Per keyword the four weighted
field tests are accumulated, in source order. -/
def score (r : Record) (keywords : List String) : Nat :=
  keywords.foldl
    (fun s kw =>
      s + (if str_contains_word r.jobTitle kw then 1 else 0) * 10
        + (if str_contains_word r.skills kw then 1 else 0) * 10
        + (if str_contains_word r.expertise kw then 1 else 0) * 5
        + (if str_contains_word r.bio kw then 1 else 0) * 3)
    0

/-- Contribution of a single keyword to a record's score: the sum of the
field weights of the fields the keyword whole-word-matches. -/
def contrib (r : Record) (kw : String) : Nat :=
  (if str_contains_word r.jobTitle kw then 10 else 0)
    + (if str_contains_word r.skills kw then 10 else 0)
    + (if str_contains_word r.expertise kw then 5 else 0)
    + (if str_contains_word r.bio kw then 3 else 0)

/-- Stable ascending insertion of a scored row: the new row goes after all
rows of less-or-equal score.  This is numpy's insertion sort on (value,
index) pairs, the algorithm `np.argsort(kind='quicksort')` runs below the
small-array threshold. -/
def insertAsc (p : Record × Nat) : List (Record × Nat) → List (Record × Nat)
  | [] => [p]
  | q :: qs => if p.2 < q.2 then p :: q :: qs else q :: insertAsc p qs

/-- Stable ascending sort by score (insertion sort). -/
def insertionSortAsc (l : List (Record × Nat)) : List (Record × Nat) :=
  l.foldl (fun acc p => insertAsc p acc) []

/-- Models `df.sort_values('score', ascending=False)` (line 164) up to the
order of equal scores.  pandas `nargsort` handles `ascending=False` by
reversing the rows, taking an ascending argsort with the default
`kind='quicksort'` (numpy's introsort), and reversing the resulting order
again.  The argsort is modelled by a stable insertion sort, which is exact
below numpy's small-array threshold but a modelling choice above it, where
introsort gives no tie-order guarantee; the theorems proved through this
definition therefore do not depend on the relative order of equal scores,
only on the sorted output being some permutation ordered by score. -/
def sort_values_desc (l : List (Record × Nat)) : List (Record × Nat) :=
  (insertionSortAsc l.reverse).reverse

/-- Line 164: score the rows, keep positive scores, sort descending, take 40. -/
def top_candidates (df : List Record) (keywords : List String) : List (Record × Nat) :=
  (sort_values_desc ((df.map (fun r => (r, score r keywords))).filter
    (fun p => p.2 > 0))).take 40

/-- The pandas index of the candidate rows (`top_candidates.index`). -/
def cand_index (tc : List (Record × Nat)) : List Nat := tc.map (fun p => p.1.idx)

/-- Models `re.findall(r'\d+', text)`: the maximal runs of decimal digits. -/
def digitRuns : List Char → List (List Char)
  | [] => []
  | c :: cs =>
    if c.isDigit then
      match cs with
      | [] => [[c]]
      | d :: _ =>
        if d.isDigit then
          match digitRuns cs with
          | t :: ts => (c :: t) :: ts
          | [] => [[c]]
        else [c] :: digitRuns cs
    else digitRuns cs

/-- Python `int` on a non-empty string of decimal digits. -/
def natOfDigits (cs : List Char) : Nat :=
  cs.foldl (fun a c => a * 10 + (c.toNat - 48)) 0

/-- Line 179: `indices = [int(n) for n in re.findall(r'\d+', response.text)]`. -/
def extractInts (text : String) : List Nat :=
  (digitRuns text.data).map natOfDigits

/-- Lines 170-183: the AI re-ranking step.  The outcome of
`model.generate_content(prompt).text` is supplied as an `Except` value:
`Except.error` is an exception raised inside the `try` block (caught by the
bare `except`), `Except.ok text` the model's free-text reply.  The result
is `some valid_indices` exactly when line 181 returns; `none` is the
fall-through to the fallback return at line 185. -/
def rerank (tc : List (Record × Nat)) (resp : Except Unit String) : Option (List Nat) :=
  match resp with
  | .error _ => none
  | .ok text =>
    let indices := extractInts text
    let valid_indices := indices.filter (fun i => (cand_index tc).contains i)
    if valid_indices.isEmpty then none else some valid_indices

/-- Lines 136-137: the department filter.  `"All Departments"` is the
sentinel; any other value keeps exactly the rows whose `Department` cell
equals it (case-sensitive string equality). -/
def filter_department (df : List Record) (department_filter : String) : List Record :=
  if department_filter != "All Departments"
  then df.filter (fun r => r.department == department_filter)
  else df

/-- Line 185 (also the value of `top_candidates.head(5).index.tolist()`). -/
def fallback_ids (tc : List (Record × Nat)) : List Nat :=
  (tc.take 5).map (fun p => p.1.idx)

/-- Lines 134-185: `search_logic(df, query, model, department_filter)`.
`model = none` is a falsy model handle; `model = some resp` a usable
handle whose single `generate_content` call has outcome `resp`.  The
emptiness tests (`df.empty`, `if not keywords`, `top_candidates.empty`)
are written as equality with the empty list. -/
def search_logic (df : List Record) (query : String) (model : Option (Except Unit String))
    (department_filter : String) : List Nat × Option String :=
  if filter_department df department_filter = [] then
    ([], some "No matches in this department.")
  else if tokenize query = [] then
    (((filter_department df department_filter).take 10).map (fun r => r.idx),
      some "Showing recent employees.")
  else if top_candidates (filter_department df department_filter) (tokenize query) = [] then
    ([], some "No direct keyword matches found.")
  else
    match model with
    | some resp =>
      if (top_candidates (filter_department df department_filter) (tokenize query)).length > 3 then
        match rerank (top_candidates (filter_department df department_filter) (tokenize query)) resp with
        | some valid_indices => (valid_indices, none)
        | none =>
          (fallback_ids (top_candidates (filter_department df department_filter) (tokenize query)),
            none)
      else
        (fallback_ids (top_candidates (filter_department df department_filter) (tokenize query)),
          none)
    | none =>
      (fallback_ids (top_candidates (filter_department df department_filter) (tokenize query)),
        none)

/-! ### Data loading (`load_data`, lines 113-120) -/

/-- An exception of the Python runtime, as far as `load_data` is concerned. -/
inductive PyError where
  | fileNotFound
  | keyError (col : String)
  | parseError (msg : String)
deriving DecidableEq

/-- A cell of the raw spreadsheet; `none` is a missing value (NaN). -/
abbrev Cell := Option String

/-- The raw DataFrame produced by `pd.read_excel`, column-oriented:
column name paired with its cells. -/
abbrev Table := List (String × List Cell)

/-- The seven text columns normalized by `load_data` (line 116), in source order. -/
def text_columns : List String :=
  ["Job Title", "Bio", "Skills", "Expertise", "Email", "Name", "Department"]

/-- Column lookup, `df[col]` as a total function. -/
def getCol (t : Table) (c : String) : Option (List Cell) :=
  (t.find? (fun p => p.1 == c)).map (fun p => p.2)

/-- Column assignment, `df[col] = v` (for an existing column). -/
def setCol (t : Table) (c : String) (v : List Cell) : Table :=
  t.map (fun p => if p.1 == c then (p.1, v) else p)

/-- One iteration of the loop at lines 116-117:
`df[col] = df[col].fillna('').astype(str)`.  Indexing a missing column
raises `KeyError`; otherwise missing cells become the empty string
(`astype(str)` is the identity on the string cells of this model). -/
def fillColumn (t : Table) (c : String) : Except PyError Table :=
  match getCol t c with
  | none => .error (.keyError c)
  | some cells => .ok (setCol t c (cells.map (fun v => some (v.getD ""))))

/-- Lines 113-120: `load_data`.  The outcome of `pd.read_excel(file_path)`
is supplied as an `Except` value (`.error .fileNotFound` when the backing
file does not exist, `.error (.parseError _)` when the file exists but
cannot be parsed, `.ok t` the parsed table).  The `try` block is the read
followed by the normalization loop; only `FileNotFoundError` is caught and
turned into `None`, every other exception escapes. -/
def load_data (read_excel_result : Except PyError Table) : Except PyError (Option Table) :=
  match read_excel_result.bind (fun df => text_columns.foldlM fillColumn df) with
  | .ok df => .ok (some df)
  | .error .fileNotFound => .ok none
  | .error e => .error e

/-! ### Concrete records used by witnesses and counterexamples -/

/-- Record builder for the concrete test rows. -/
def mkRec (i : Nat) (title skills dept : String) : Record :=
  { idx := i, name := "", jobTitle := title, bio := "", skills := skills,
    expertise := "", email := "", department := dept }

def recJavaScript : Record := mkRec 0 "" "JavaScript" "Engineering"

def recJava : Record := mkRec 0 "" "Java" "Engineering"

def recPy0 : Record := mkRec 0 "" "Python" "Engineering"

def recPy1 : Record := mkRec 1 "" "Python" "Engineering"

def recPy2 : Record := mkRec 2 "" "Python" "Engineering"

def recPy3 : Record := mkRec 3 "" "Python" "Engineering"

def recSales : Record := mkRec 0 "Seller" "" "Sales"

/-! ## Helper lemmas -/

theorem rerank_ok_eq {tc : List (Record × Nat)} {text : String} {v : List Nat}
    (h : rerank tc (Except.ok text) = some v) :
    v = (extractInts text).filter (fun i => (cand_index tc).contains i) := by
  unfold rerank at h
  dsimp only at h
  by_cases he : ((extractInts text).filter (fun i => (cand_index tc).contains i)).isEmpty
  · rw [if_pos he] at h
    exact Option.noConfusion h
  · rw [if_neg he] at h
    exact (Option.some.inj h).symm

theorem rerank_error_eq_none (tc : List (Record × Nat)) (e : Unit) :
    rerank tc (Except.error e) = none := rfl

theorem rerank_some_ne_nil {tc : List (Record × Nat)} {resp : Except Unit String}
    {v : List Nat} (h : rerank tc resp = some v) : v ≠ [] := by
  cases resp with
  | error e => simp [rerank] at h
  | ok text =>
    unfold rerank at h
    dsimp only at h
    by_cases he : ((extractInts text).filter (fun i => (cand_index tc).contains i)).isEmpty
    · rw [if_pos he] at h
      exact Option.noConfusion h
    · rw [if_neg he] at h
      have hv := Option.some.inj h
      intro hnil
      rw [hnil] at hv
      rw [hv] at he
      exact he rfl

theorem fallback_ids_ne_nil {tc : List (Record × Nat)} (h : tc ≠ []) :
    fallback_ids tc ≠ [] := by
  cases tc with
  | nil => exact absurd rfl h
  | cons p l => simp [fallback_ids]

theorem fallback_ids_length_le (tc : List (Record × Nat)) :
    (fallback_ids tc).length ≤ 5 := by
  simp only [fallback_ids, List.length_map, List.length_take]
  omega

theorem search_logic_dept_empty (df : List Record) (q : String)
    (model : Option (Except Unit String)) (f : String)
    (h : filter_department df f = []) :
    search_logic df q model f = ([], some "No matches in this department.") := by
  unfold search_logic
  rw [if_pos h]

theorem search_logic_no_tokens (df : List Record) (q : String)
    (model : Option (Except Unit String)) (f : String)
    (h1 : filter_department df f ≠ []) (h2 : tokenize q = []) :
    search_logic df q model f =
      (((filter_department df f).take 10).map (fun r => r.idx),
        some "Showing recent employees.") := by
  unfold search_logic
  rw [if_neg h1, if_pos h2]

theorem search_logic_no_candidates (df : List Record) (q : String)
    (model : Option (Except Unit String)) (f : String)
    (h1 : filter_department df f ≠ []) (h2 : tokenize q ≠ [])
    (h3 : top_candidates (filter_department df f) (tokenize q) = []) :
    search_logic df q model f = ([], some "No direct keyword matches found.") := by
  unfold search_logic
  rw [if_neg h1, if_neg h2, if_pos h3]

theorem search_logic_fallback (df : List Record) (q : String)
    (model : Option (Except Unit String)) (f : String)
    (h1 : filter_department df f ≠ []) (h2 : tokenize q ≠ [])
    (h3 : top_candidates (filter_department df f) (tokenize q) ≠ [])
    (h4 : model = none ∨
      (top_candidates (filter_department df f) (tokenize q)).length ≤ 3 ∨
      ∃ resp, model = some resp ∧
        rerank (top_candidates (filter_department df f) (tokenize q)) resp = none) :
    search_logic df q model f =
      (fallback_ids (top_candidates (filter_department df f) (tokenize q)), none) := by
  unfold search_logic
  rw [if_neg h1, if_neg h2, if_neg h3]
  rcases h4 with h4 | h4 | ⟨resp, hm, hr⟩
  · rw [h4]
  · cases model with
    | none => rfl
    | some resp =>
      dsimp only
      rw [if_neg (by omega :
        ¬ (top_candidates (filter_department df f) (tokenize q)).length > 3)]
  · rw [hm]
    dsimp only
    by_cases hlen : (top_candidates (filter_department df f) (tokenize q)).length > 3
    · rw [if_pos hlen, hr]
    · rw [if_neg hlen]

theorem search_logic_ai (df : List Record) (q : String) (resp : Except Unit String)
    (f : String) (v : List Nat)
    (h1 : filter_department df f ≠ []) (h2 : tokenize q ≠ [])
    (h3 : top_candidates (filter_department df f) (tokenize q) ≠ [])
    (hlen : (top_candidates (filter_department df f) (tokenize q)).length > 3)
    (hr : rerank (top_candidates (filter_department df f) (tokenize q)) resp = some v) :
    search_logic df q (some resp) f = (v, none) := by
  unfold search_logic
  rw [if_neg h1, if_neg h2, if_neg h3]
  dsimp only
  rw [if_pos hlen, hr]

theorem splitRuns_cons (c : Char) (cs : List Char) : splitRuns (c :: cs) =
    if isWordChar c then
      match splitRuns cs with
      | t :: ts => (c :: t) :: ts
      | [] => [[c]]
    else
      match cs with
      | [] => [[], []]
      | d :: _ => if isWordChar d then [] :: splitRuns cs else splitRuns cs := rfl

theorem wordRuns_cons (c : Char) (cs : List Char) : wordRuns (c :: cs) =
    if isWordChar c then
      match cs with
      | [] => [[c]]
      | d :: _ =>
        if isWordChar d then
          match wordRuns cs with
          | t :: ts => (c :: t) :: ts
          | [] => [[c]]
        else [c] :: wordRuns cs
    else wordRuns cs := rfl

theorem splitRuns_cons_word {c : Char} {cs t : List Char} {ts : List (List Char)}
    (hc : isWordChar c = true) (hs : splitRuns cs = t :: ts) :
    splitRuns (c :: cs) = (c :: t) :: ts := by
  rw [splitRuns_cons, if_pos hc, hs]

theorem splitRuns_sep_nil {c : Char} (hc : isWordChar c = false) :
    splitRuns [c] = [[], []] := by
  rw [splitRuns_cons, if_neg (by simp [hc])]

theorem splitRuns_sep_word {c d : Char} {ds : List Char}
    (hc : isWordChar c = false) (hd : isWordChar d = true) :
    splitRuns (c :: d :: ds) = [] :: splitRuns (d :: ds) := by
  rw [splitRuns_cons c (d :: ds), if_neg (by simp [hc])]
  dsimp only
  rw [if_pos hd]

theorem splitRuns_sep_sep {c d : Char} {ds : List Char}
    (hc : isWordChar c = false) (hd : isWordChar d = false) :
    splitRuns (c :: d :: ds) = splitRuns (d :: ds) := by
  rw [splitRuns_cons c (d :: ds), if_neg (by simp [hc])]
  dsimp only
  rw [if_neg (by simp [hd])]

theorem wordRuns_sep {c : Char} (cs : List Char) (hc : isWordChar c = false) :
    wordRuns (c :: cs) = wordRuns cs := by
  rw [wordRuns_cons, if_neg (by simp [hc])]

theorem wordRuns_word_nil {c : Char} (hc : isWordChar c = true) :
    wordRuns [c] = [[c]] := by
  rw [wordRuns_cons, if_pos hc]

theorem wordRuns_word_word {c d : Char} {ds t : List Char} {ts : List (List Char)}
    (hc : isWordChar c = true) (hd : isWordChar d = true)
    (hw : wordRuns (d :: ds) = t :: ts) :
    wordRuns (c :: d :: ds) = (c :: t) :: ts := by
  rw [wordRuns_cons c (d :: ds), if_pos hc]
  dsimp only
  rw [if_pos hd, hw]

theorem wordRuns_word_sep {c d : Char} {ds : List Char}
    (hc : isWordChar c = true) (hd : isWordChar d = false) :
    wordRuns (c :: d :: ds) = [c] :: wordRuns (d :: ds) := by
  rw [wordRuns_cons c (d :: ds), if_pos hc]
  dsimp only
  rw [if_neg (by simp [hd])]

theorem splitRuns_ne_nil (s : List Char) : splitRuns s ≠ [] := by
  induction s with
  | nil => simp [splitRuns]
  | cons c cs ih =>
    rw [splitRuns_cons]
    by_cases h : isWordChar c = true
    · rw [if_pos h]
      cases hs : splitRuns cs with
      | nil => simp
      | cons t ts => simp
    · rw [if_neg h]
      cases cs with
      | nil => simp
      | cons d ds =>
        dsimp only
        by_cases hd : isWordChar d = true
        · rw [if_pos hd]; simp
        · rw [if_neg hd]; exact ih

theorem splitRuns_sep_head (cs : List Char) : ∀ c : Char, isWordChar c = false →
    ∃ ts, splitRuns (c :: cs) = [] :: ts := by
  induction cs with
  | nil =>
    intro c h
    exact ⟨[[]], splitRuns_sep_nil h⟩
  | cons d ds ih =>
    intro c h
    by_cases hd : isWordChar d = true
    · exact ⟨splitRuns (d :: ds), splitRuns_sep_word h hd⟩
    · obtain ⟨ts, hts⟩ := ih d (Bool.eq_false_iff.mpr hd)
      exact ⟨ts, by rw [splitRuns_sep_sep h (Bool.eq_false_iff.mpr hd), hts]⟩

theorem filter_splitRuns (s : List Char) :
    (splitRuns s).filter (fun cs => cs != []) = wordRuns s := by
  induction s with
  | nil => rfl
  | cons c cs ih =>
    by_cases h : isWordChar c = true
    · cases cs with
      | nil =>
        rw [splitRuns_cons_word h (show splitRuns [] = [] :: [] from rfl),
          wordRuns_word_nil h]
        rfl
      | cons d ds =>
        by_cases hd : isWordChar d = true
        · obtain ⟨t, ts, hts⟩ : ∃ t ts, splitRuns (d :: ds) = (d :: t) :: ts := by
            cases hq : splitRuns ds with
            | nil => exact absurd hq (splitRuns_ne_nil ds)
            | cons a b => exact ⟨a, b, splitRuns_cons_word hd hq⟩
          rw [splitRuns_cons_word h hts,
            List.filter_cons_of_pos (by simp)]
          rw [hts, List.filter_cons_of_pos (by simp)] at ih
          rw [wordRuns_word_word h hd ih.symm]
        · obtain ⟨ts, hts⟩ := splitRuns_sep_head ds d (Bool.eq_false_iff.mpr hd)
          rw [splitRuns_cons_word h hts, List.filter_cons_of_pos (by simp)]
          rw [hts, List.filter_cons_of_neg (by simp)] at ih
          rw [wordRuns_word_sep h (Bool.eq_false_iff.mpr hd), ih]
    · have h' : isWordChar c = false := Bool.eq_false_iff.mpr h
      cases cs with
      | nil =>
        rw [splitRuns_sep_nil h', wordRuns_sep [] h']
        rfl
      | cons d ds =>
        by_cases hd : isWordChar d = true
        · rw [splitRuns_sep_word h' hd, List.filter_cons_of_neg (by simp),
            ih, wordRuns_sep (d :: ds) h']
        · rw [splitRuns_sep_sep h' (Bool.eq_false_iff.mpr hd), ih,
            wordRuns_sep (d :: ds) h']

theorem filter_map_mk (l : List (List Char)) (p : String → Bool) :
    (l.map (fun w => String.mk w)).filter p =
      (l.filter (fun w => p (String.mk w))).map (fun w => String.mk w) := by
  induction l with
  | nil => rfl
  | cons w l ih =>
    by_cases h : p (String.mk w) = true <;>
      simp [List.filter_cons, h, ih]

theorem mk_bne_empty (cs : List Char) : (String.mk cs != "") = (cs != []) := by
  cases cs with
  | nil => rfl
  | cons c cs =>
    have h1 : String.mk (c :: cs) ≠ "" := by
      intro h
      have hd := congrArg String.data h
      simp at hd
    have e1 : (String.mk (c :: cs) != "") = true := by
      simpa using h1
    have e2 : ((c :: cs : List Char) != []) = true := by simp
    rw [e1, e2]

theorem score_eq_sum (r : Record) (toks : List String) :
    score r toks = (toks.map (contrib r)).sum := by
  have h : ∀ (l : List String) (a : Nat),
      l.foldl
        (fun s kw =>
          s + (if str_contains_word r.jobTitle kw then 1 else 0) * 10
            + (if str_contains_word r.skills kw then 1 else 0) * 10
            + (if str_contains_word r.expertise kw then 1 else 0) * 5
            + (if str_contains_word r.bio kw then 1 else 0) * 3) a
        = a + (l.map (contrib r)).sum := by
    intro l
    induction l with
    | nil => intro a; simp
    | cons kw l ih =>
      intro a
      rw [List.foldl_cons, ih, List.map_cons, List.sum_cons]
      unfold contrib
      by_cases h1 : str_contains_word r.jobTitle kw = true <;>
        by_cases h2 : str_contains_word r.skills kw = true <;>
          by_cases h3 : str_contains_word r.expertise kw = true <;>
            by_cases h4 : str_contains_word r.bio kw = true <;>
              simp [h1, h2, h3, h4] <;> omega
  simpa [score] using h toks 0

theorem startsWithBoundary_nil_iff (cs : List Char) :
    startsWithBoundary [] cs = true ↔ cs.takeWhile isWordChar = [] := by
  cases cs with
  | nil => simp [startsWithBoundary]
  | cons e es =>
    rw [show startsWithBoundary [] (e :: es) = !(isWordChar e) from rfl,
      List.takeWhile_cons]
    by_cases he : isWordChar e = true
    · simp [he]
    · simp [Bool.eq_false_iff.mpr he]

theorem startsWithBoundary_iff :
    ∀ (K s : List Char), (∀ c ∈ K, isWordChar c = true) → K ≠ [] →
      (startsWithBoundary K s = true ↔ s.takeWhile isWordChar = K) := by
  intro K
  induction K with
  | nil => intro s _ hne; exact absurd rfl hne
  | cons k ks ih =>
    intro s hW _
    have hk : isWordChar k = true := hW k (List.mem_cons_self k ks)
    cases s with
    | nil =>
      rw [show startsWithBoundary (k :: ks) [] = false from rfl]
      simp
    | cons c cs =>
      rw [show startsWithBoundary (k :: ks) (c :: cs) =
        ((k == c) && startsWithBoundary ks cs) from rfl]
      by_cases hc : k = c
      · subst hc
        rw [List.takeWhile_cons, if_pos hk]
        simp only [beq_self_eq_true, Bool.true_and, List.cons.injEq, true_and]
        cases ks with
        | nil => exact startsWithBoundary_nil_iff cs
        | cons k2 ks2 =>
          exact ih cs (fun x hx => hW x (List.mem_cons_of_mem k hx)) (by simp)
      · have hkc : (k == c) = false := by simpa using hc
        rw [hkc, Bool.false_and]
        constructor
        · intro h; exact absurd h (by simp)
        · intro h
          by_cases hcw : isWordChar c = true
          · rw [List.takeWhile_cons, if_pos hcw] at h
            have hck : c = k := by simpa using congrArg List.head? h
            exact absurd hck.symm hc
          · rw [List.takeWhile_cons, if_neg hcw] at h
            exact absurd h (by simp)

theorem wordRuns_word_decomp : ∀ (cs : List Char) (c : Char), isWordChar c = true →
    wordRuns (c :: cs) =
      (c :: cs.takeWhile isWordChar) :: wordRuns (cs.dropWhile isWordChar) := by
  intro cs
  induction cs with
  | nil => intro c hc; rw [wordRuns_word_nil hc]; rfl
  | cons d ds ih =>
    intro c hc
    by_cases hd : isWordChar d = true
    · rw [wordRuns_word_word hc hd (ih d hd),
        List.takeWhile_cons, if_pos hd, List.dropWhile_cons, if_pos hd]
    · have hd' : isWordChar d = false := Bool.eq_false_iff.mpr hd
      rw [wordRuns_word_sep hc hd',
        List.takeWhile_cons, if_neg hd, List.dropWhile_cons, if_neg hd]

theorem findWord_nil (kw : List Char) (b : Bool) :
    findWord kw b [] = (b && startsWithBoundary kw []) := rfl

theorem findWord_cons (kw : List Char) (b : Bool) (c : Char) (cs : List Char) :
    findWord kw b (c :: cs) =
      ((b && startsWithBoundary kw (c :: cs)) || findWord kw (!(isWordChar c)) cs) := rfl

theorem swb_head_nonword {K : List Char} (hne : K ≠ [])
    (hW : ∀ x ∈ K, isWordChar x = true) {c : Char} (hc : isWordChar c = false)
    (cs : List Char) : startsWithBoundary K (c :: cs) = false := by
  obtain ⟨k, ks, rfl⟩ := List.exists_cons_of_ne_nil hne
  rw [show startsWithBoundary (k :: ks) (c :: cs) =
    ((k == c) && startsWithBoundary ks cs) from rfl]
  have hk : isWordChar k = true := hW k (List.mem_cons_self k ks)
  have hkc : (k == c) = false := by
    refine beq_eq_false_iff_ne.mpr ?_
    intro h
    rw [h, hc] at hk
    exact Bool.noConfusion hk
  rw [hkc, Bool.false_and]

theorem findWord_iff_runs (K : List Char) (hne : K ≠ [])
    (hW : ∀ c ∈ K, isWordChar c = true) :
    ∀ S : List Char,
      (findWord K true S = true ↔ K ∈ wordRuns S) ∧
      (findWord K false S = true ↔ K ∈ wordRuns (S.dropWhile isWordChar)) := by
  intro S
  induction S with
  | nil =>
    obtain ⟨k, ks, rfl⟩ := List.exists_cons_of_ne_nil hne
    constructor
    · rw [findWord_nil, show startsWithBoundary (k :: ks) [] = false from rfl]
      simp [wordRuns]
    · rw [findWord_nil, show startsWithBoundary (k :: ks) [] = false from rfl]
      simp [wordRuns]
  | cons c cs ih =>
    by_cases hc : isWordChar c = true
    · constructor
      · rw [findWord_cons, hc, Bool.not_true, Bool.true_and, Bool.or_eq_true,
          wordRuns_word_decomp cs c hc, List.mem_cons]
        apply or_congr
        · rw [startsWithBoundary_iff K (c :: cs) hW hne, List.takeWhile_cons, if_pos hc]
          exact eq_comm
        · exact ih.2
      · rw [findWord_cons, hc, Bool.not_true, Bool.false_and, Bool.false_or,
          List.dropWhile_cons, if_pos hc]
        exact ih.2
    · have hc' : isWordChar c = false := Bool.eq_false_iff.mpr hc
      have hswb := swb_head_nonword hne hW hc' cs
      have key : ∀ b : Bool, findWord K b (c :: cs) = findWord K true cs := by
        intro b
        rw [findWord_cons, hswb, Bool.and_false, Bool.false_or, hc', Bool.not_false]
      constructor
      · rw [key true, wordRuns_sep cs hc']
        exact ih.1
      · rw [key false, List.dropWhile_cons, if_neg hc, wordRuns_sep cs hc']
        exact ih.1

theorem str_contains_word_iff (field kw : String)
    (hne : kw.data.map Char.toLower ≠ [])
    (hW : ∀ c ∈ kw.data.map Char.toLower, isWordChar c = true) :
    (str_contains_word field kw = true ↔
      kw.data.map Char.toLower ∈ wordRuns (py_lower field)) :=
  (findWord_iff_runs (kw.data.map Char.toLower) hne hW (py_lower field)).1

theorem foldlM_fillColumn_error : ∀ (cs : List String) (t : Table) (e : PyError),
    cs.foldlM fillColumn t = .error e → ∃ c, e = .keyError c := by
  intro cs
  induction cs with
  | nil =>
    intro t e h
    exact Except.noConfusion (show Except.ok t = Except.error e from h)
  | cons c cs ih =>
    intro t e h
    rw [List.foldlM_cons] at h
    cases hg : getCol t c with
    | none =>
      unfold fillColumn at h
      rw [hg] at h
      have h' : (Except.error (PyError.keyError c) : Except PyError Table) =
          Except.error e := h
      exact ⟨c, (Except.error.inj h').symm⟩
    | some cells =>
      unfold fillColumn at h
      rw [hg] at h
      exact ih _ e h

theorem getCol_setCol_none (t : Table) (c c0 : String) (v : List Cell) :
    (getCol (setCol t c v) c0 = none) ↔ (getCol t c0 = none) := by
  induction t with
  | nil => simp [getCol, setCol]
  | cons p ps ih =>
    unfold getCol setCol
    unfold getCol setCol at ih
    rw [List.map_cons]
    by_cases hp : (p.1 == c) = true
    · rw [if_pos hp]
      by_cases hp0 : (p.1 == c0) = true
      · simp [List.find?_cons, hp0]
      · simp only [List.find?_cons, hp0, if_false]
        exact ih
    · rw [if_neg hp]
      by_cases hp0 : (p.1 == c0) = true
      · simp [List.find?_cons, hp0]
      · simp only [List.find?_cons, hp0, if_false]
        exact ih

theorem foldlM_fillColumn_missing : ∀ (cs : List String) (t : Table),
    (∃ c ∈ cs, getCol t c = none) →
    ∃ e, cs.foldlM fillColumn t = .error (.keyError e) := by
  intro cs
  induction cs with
  | nil =>
    intro t h
    obtain ⟨c, hc, _⟩ := h
    exact absurd hc (List.not_mem_nil c)
  | cons c cs ih =>
    intro t h
    rw [List.foldlM_cons]
    cases hg : getCol t c with
    | none =>
      refine ⟨c, ?_⟩
      unfold fillColumn
      rw [hg]
      rfl
    | some cells =>
      obtain ⟨c0, hc0mem, hc0⟩ := h
      have hc0' : c0 ∈ cs := by
        rcases List.mem_cons.mp hc0mem with rfl | hmem
        · rw [hg] at hc0
          exact absurd hc0 (by simp)
        · exact hmem
      have hmiss : getCol (setCol t c (cells.map (fun v => some (v.getD "")))) c0 =
          none := (getCol_setCol_none t c c0 _).mpr hc0
      obtain ⟨e, he⟩ := ih (setCol t c (cells.map (fun v => some (v.getD ""))))
        ⟨c0, hc0', hmiss⟩
      refine ⟨e, ?_⟩
      unfold fillColumn
      rw [hg]
      exact he

/-! ## Claims -/

/-- C5: `tokenize` (line 148) lower-cases the query, splits it on every run of
non-word characters (word characters being alphanumerics and underscore),
discards empty tokens, removes exactly the tokens in the fixed 25-entry
stop-word list, and returns the surviving tokens in their original
left-to-right order with duplicates preserved: the stop-word list has 25
entries and `tokenize` agrees with the specification-side `tokenize_spec`
(stop-word filtering of the maximal word-character runs, in order). -/
theorem tokenize_characterization :
    stop_words.length = 25 ∧ ∀ q : String, tokenize q = tokenize_spec q := by
  constructor
  · rfl
  · intro q
    unfold tokenize tokenize_spec
    rw [filter_map_mk, filter_map_mk]
    congr 1
    rw [← filter_splitRuns (py_lower q), List.filter_filter]
    apply List.filter_congr
    intro w _
    rw [mk_bne_empty]
    exact Bool.and_comm _ _

theorem top_candidates_nil_df (kws : List String) : top_candidates [] kws = [] := rfl

theorem score_nil (r : Record) : score r [] = 0 := rfl

theorem top_candidates_nil_kws (df : List Record) : top_candidates df [] = [] := by
  unfold top_candidates
  have h : (df.map (fun r => (r, score r []))).filter (fun p => p.2 > 0) = [] := by
    rw [List.filter_eq_nil_iff]
    intro p hp
    obtain ⟨r, _, hr⟩ := List.mem_map.mp hp
    rw [← hr]
    simp [score_nil]
  rw [h]
  rfl

/-- C4: `score` equals the sum over tokens of the per-token contribution
`contrib`, whose field weights are jobTitle 10, skills 10, expertise 5, bio 3,
counted whenever the token matches the field as a standalone whole word
case-insensitively (a whole-word hit is exactly membership of the lowered
token among the maximal word-character runs of the lowered field); duplicate
tokens contribute multiply (additivity over concatenation), a token may score
on several fields, and there is no substring leakage: skills "JavaScript"
does not match token "java", skills "Java" does not match token "av", while
skills "Java" does match token "java". -/
theorem score_characterization :
    (∀ (r : Record) (toks : List String), score r toks = (toks.map (contrib r)).sum) ∧
    (∀ (r : Record) (t1 t2 : List String),
      score r (t1 ++ t2) = score r t1 + score r t2) ∧
    (∀ (field kw : String), kw.data.map Char.toLower ≠ [] →
      (∀ c ∈ kw.data.map Char.toLower, isWordChar c = true) →
      (str_contains_word field kw = true ↔
        kw.data.map Char.toLower ∈ wordRuns (py_lower field))) ∧
    score recJavaScript ["java"] = 0 ∧
    score recJava ["av"] = 0 ∧
    score recJava ["java"] = 10 ∧
    contrib recJava "java" = 10 := by
  refine ⟨score_eq_sum, ?_, str_contains_word_iff, by decide, by decide, by decide, by decide⟩
  intro r t1 t2
  rw [score_eq_sum, score_eq_sum, score_eq_sum, List.map_append, List.sum_append]

theorem score_characterization_witness :
    str_contains_word "Java, SQL" "Java" = true ↔
      "Java".data.map Char.toLower ∈ wordRuns (py_lower "Java, SQL") :=
  score_characterization.2.2.1 "Java, SQL" "Java" (by decide) (by decide)

/-- C7: for every query that tokenizes to nothing and every department filter
leaving a non-empty record set, `search_logic` returns exactly the indices of
the first 10 records of the filtered set in storage order, unscored, with the
status message "Showing recent employees." (lines 150-151). -/
theorem empty_tokens_recent_employees (df : List Record) (q : String)
    (model : Option (Except Unit String)) (f : String)
    (htok : tokenize q = []) (hne : filter_department df f ≠ []) :
    search_logic df q model f =
      (((filter_department df f).take 10).map (fun r => r.idx),
        some "Showing recent employees.") :=
  search_logic_no_tokens df q model f hne htok

theorem empty_tokens_recent_employees_witness :
    search_logic [recPy0, recPy1] "Who can help me?" none "All Departments" =
      (((filter_department [recPy0, recPy1] "All Departments").take 10).map
          (fun r => r.idx),
        some "Showing recent employees.") :=
  empty_tokens_recent_employees [recPy0, recPy1] "Who can help me?" none
    "All Departments" (by decide) (by decide)

/-- C8: filtering with the sentinel "All Departments" returns the record
collection unchanged in the same order; any other filter keeps exactly the
records whose department equals the filter under case-sensitive string
equality (so filter "sales" does not match department "Sales"); and a filter
matching no record makes `search_logic` return the empty sequence with the
message "No matches in this department." rather than an error (lines 136-139). -/
theorem department_filter_characterization (df : List Record) (q : String)
    (model : Option (Except Unit String)) (f : String) :
    filter_department df "All Departments" = df ∧
    (f ≠ "All Departments" →
      filter_department df f = df.filter (fun r => r.department == f)) ∧
    (filter_department df f = [] →
      search_logic df q model f = ([], some "No matches in this department.")) ∧
    filter_department [recSales] "sales" = [] ∧
    filter_department [recSales] "Sales" = [recSales] := by
  refine ⟨?_, ?_, ?_, by decide, by decide⟩
  · unfold filter_department
    rw [if_neg (by simp)]
  · intro hf
    unfold filter_department
    rw [if_pos (by simpa using hf)]
  · intro h
    exact search_logic_dept_empty df q model f h

theorem department_filter_characterization_witness :
    filter_department [recSales] "Marketing" =
      [recSales].filter (fun r => r.department == "Marketing") ∧
    search_logic [recSales] "seller" none "Marketing" =
      ([], some "No matches in this department.") :=
  ⟨(department_filter_characterization [recSales] "seller" none "Marketing").2.1
      (by decide),
    (department_filter_characterization [recSales] "seller" none "Marketing").2.2.1
      (by decide)⟩

/-- C1: every identifier returned by the AI re-ranking path (lines 179-181)
lies in the candidate set passed to it, for every candidate set and every
free-text model response; every parsed integer that is not in the candidate
set is discarded and never appears in the result. -/
theorem ai_rerank_subset (tc : List (Record × Nat)) (text : String) (v : List Nat)
    (h : rerank tc (Except.ok text) = some v) :
    (∀ i ∈ v, i ∈ cand_index tc) ∧
      ∀ i ∈ extractInts text, i ∉ cand_index tc → i ∉ v := by
  have hv := rerank_ok_eq h
  subst hv
  constructor
  · intro i hi
    have hp := List.of_mem_filter hi
    simpa using hp
  · intro i _ hnot hin
    have hp := List.of_mem_filter hin
    exact hnot (by simpa using hp)

theorem ai_rerank_subset_witness :
    (∀ i ∈ ([0] : List Nat), i ∈ cand_index [(recPy0, 10)]) ∧
      ∀ i ∈ extractInts "[0, 7]", i ∉ cand_index [(recPy0, 10)] → i ∉ ([0] : List Nat) :=
  ai_rerank_subset [(recPy0, 10)] "[0, 7]" [0] (by decide)

/-- C6: whenever the model handle is absent, or the candidate set has 3 or
fewer entries, or the AI call raised an exception, or zero parsed integers
survived filtering (the last two being exactly the cases in which `rerank`
signals fallback for a present model), `search_logic` falls back to the first
5 candidates in the selector's by-score order and returns at most 5
identifiers; an exception outcome of the AI call always maps to the fallback
signal, so no exception escapes to the caller. -/
theorem ai_failure_fallback (df : List Record) (q : String)
    (model : Option (Except Unit String)) (f : String)
    (htc : top_candidates (filter_department df f) (tokenize q) ≠ [])
    (hfb : model = none ∨
      (top_candidates (filter_department df f) (tokenize q)).length ≤ 3 ∨
      ∃ resp, model = some resp ∧
        rerank (top_candidates (filter_department df f) (tokenize q)) resp = none) :
    search_logic df q model f =
      (fallback_ids (top_candidates (filter_department df f) (tokenize q)), none) ∧
    (search_logic df q model f).1.length ≤ 5 ∧
    (∀ (tc : List (Record × Nat)) (e : Unit), rerank tc (Except.error e) = none) := by
  have h1 : filter_department df f ≠ [] := by
    intro h
    rw [h, top_candidates_nil_df] at htc
    exact htc rfl
  have h2 : tokenize q ≠ [] := by
    intro h
    rw [h, top_candidates_nil_kws] at htc
    exact htc rfl
  have heq := search_logic_fallback df q model f h1 h2 htc hfb
  refine ⟨heq, ?_, fun tc e => rfl⟩
  rw [heq]
  exact fallback_ids_length_le _

theorem ai_failure_fallback_witness :
    search_logic [recPy0] "Python" none "All Departments" =
      (fallback_ids (top_candidates (filter_department [recPy0] "All Departments")
          (tokenize "Python")), none) ∧
    (search_logic [recPy0] "Python" none "All Departments").1.length ≤ 5 ∧
    (∀ (tc : List (Record × Nat)) (e : Unit), rerank tc (Except.error e) = none) :=
  ai_failure_fallback [recPy0] "Python" none "All Departments" (by decide) (Or.inl rfl)

/-- C2 (amended): every call returns either a non-empty identifier sequence
with a null message, or an empty sequence with a non-null message, or — on the
empty-token path only — a non-empty sequence together with the non-null
message "Showing recent employees.".  The original trichotomy fails because
the empty-token path returns the first 10 records together with that
message. -/
theorem search_result_shape (df : List Record) (q : String)
    (model : Option (Except Unit String)) (f : String) :
    ((search_logic df q model f).1 ≠ [] ∧ (search_logic df q model f).2 = none) ∨
    ((search_logic df q model f).1 = [] ∧ (search_logic df q model f).2 ≠ none) ∨
    ((search_logic df q model f).1 ≠ [] ∧
      (search_logic df q model f).2 = some "Showing recent employees.") := by
  by_cases h1 : filter_department df f = []
  · rw [search_logic_dept_empty df q model f h1]
    right; left
    exact ⟨rfl, by simp⟩
  · by_cases h2 : tokenize q = []
    · rw [search_logic_no_tokens df q model f h1 h2]
      right; right
      refine ⟨?_, rfl⟩
      obtain ⟨r, rs, hr⟩ := List.exists_cons_of_ne_nil h1
      rw [hr]
      simp
    · by_cases h3 : top_candidates (filter_department df f) (tokenize q) = []
      · rw [search_logic_no_candidates df q model f h1 h2 h3]
        right; left
        exact ⟨rfl, by simp⟩
      · cases model with
        | none =>
          rw [search_logic_fallback df q none f h1 h2 h3 (Or.inl rfl)]
          left
          exact ⟨fallback_ids_ne_nil h3, rfl⟩
        | some resp =>
          by_cases h4 :
            (top_candidates (filter_department df f) (tokenize q)).length > 3
          · cases h5 :
              rerank (top_candidates (filter_department df f) (tokenize q)) resp with
            | none =>
              rw [search_logic_fallback df q (some resp) f h1 h2 h3
                (Or.inr (Or.inr ⟨resp, rfl, h5⟩))]
              left
              exact ⟨fallback_ids_ne_nil h3, rfl⟩
            | some v =>
              rw [search_logic_ai df q resp f v h1 h2 h3 h4 h5]
              left
              exact ⟨rerank_some_ne_nil h5, rfl⟩
          · rw [search_logic_fallback df q (some resp) f h1 h2 h3
              (Or.inr (Or.inl (by omega)))]
            left
            exact ⟨fallback_ids_ne_nil h3, rfl⟩

/-- C2 counterexample: on a one-record dataset with the pure stop-word query
"the", `search_logic` returns a non-empty identifier sequence together with a
non-null status message, refuting the claim that no call yields a non-empty
sequence with a non-null message. -/
theorem search_result_shape_cex :
    (search_logic [recPy0] "the" none "All Departments").1 ≠ [] ∧
    (search_logic [recPy0] "the" none "All Departments").2 ≠ none := by
  decide

/-- C9: when the AI re-ranking path succeeds, the returned sequence is exactly
the parsed integers that lie in the candidate set, in the model's output order
with repetitions preserved: the surviving integers are neither deduplicated nor
truncated to 5, so (as the concrete reply shows) the result can repeat an
identifier and exceed 5 entries, up to one entry per integer in the reply. -/
theorem ai_rerank_preserves_model_order :
    (∀ (tc : List (Record × Nat)) (text : String) (v : List Nat),
        rerank tc (Except.ok text) = some v →
          v = (extractInts text).filter (fun i => (cand_index tc).contains i)) ∧
      rerank [(recPy2, 10), (recPy3, 10)] (Except.ok "2, 3, 2, 2, 3, 2, 9") =
        some [2, 3, 2, 2, 3, 2] :=
  ⟨fun _ _ _ h => rerank_ok_eq h, by decide⟩

theorem ai_rerank_preserves_model_order_witness :
    ([2, 3, 2] : List Nat) =
      (extractInts "2 3 2").filter
        (fun i => (cand_index [(recPy2, 10), (recPy3, 10)]).contains i) :=
  ai_rerank_preserves_model_order.1 [(recPy2, 10), (recPy3, 10)] "2 3 2" [2, 3, 2] (by decide)

/-- C10: `load_data` (lines 113-120) returns the "no data available" value
`none` exactly when `pd.read_excel` raises `FileNotFoundError`; when the file
exists but fails to parse, the read exception propagates uncaught, and when
the parsed table lacks one of the seven expected text columns the
normalization loop raises an uncaught `KeyError` instead of converting it to
the load-failure value. -/
theorem load_data_error_handling :
    load_data (.error .fileNotFound) = .ok none ∧
    (∀ res : Except PyError Table, load_data res = .ok none →
      res = .error .fileNotFound) ∧
    (∀ msg : String,
      load_data (.error (.parseError msg)) = .error (.parseError msg)) ∧
    (∀ t : Table, (∃ c ∈ text_columns, getCol t c = none) →
      ∃ c, load_data (.ok t) = .error (.keyError c)) := by
  refine ⟨rfl, ?_, fun msg => rfl, ?_⟩
  · intro res h
    cases res with
    | error e =>
      cases e with
      | fileNotFound => rfl
      | keyError c =>
        exact Except.noConfusion (show (Except.error (PyError.keyError c) :
          Except PyError (Option Table)) = Except.ok none from h)
      | parseError m =>
        exact Except.noConfusion (show (Except.error (PyError.parseError m) :
          Except PyError (Option Table)) = Except.ok none from h)
    | ok t =>
      unfold load_data at h
      have hb : (Except.ok t : Except PyError Table).bind
          (fun df => text_columns.foldlM fillColumn df) =
          text_columns.foldlM fillColumn t := rfl
      rw [hb] at h
      cases hf : text_columns.foldlM fillColumn t with
      | ok t' =>
        rw [hf] at h
        have h' : (Except.ok (some t') : Except PyError (Option Table)) =
            Except.ok none := h
        exact Option.noConfusion (Except.ok.inj h')
      | error e =>
        obtain ⟨c, rfl⟩ := foldlM_fillColumn_error text_columns t e hf
        rw [hf] at h
        exact Except.noConfusion (show (Except.error (PyError.keyError c) :
          Except PyError (Option Table)) = Except.ok none from h)
  · intro t ht
    obtain ⟨e, he⟩ := foldlM_fillColumn_missing text_columns t ht
    refine ⟨e, ?_⟩
    unfold load_data
    have hb : (Except.ok t : Except PyError Table).bind
        (fun df => text_columns.foldlM fillColumn df) =
        text_columns.foldlM fillColumn t := rfl
    rw [hb, he]

theorem load_data_error_handling_witness :
    load_data (Except.error (PyError.parseError "bad sheet")) =
      Except.error (PyError.parseError "bad sheet") ∧
    ∃ c, load_data (Except.ok ([("Name", [])] : Table)) =
      Except.error (PyError.keyError c) :=
  ⟨load_data_error_handling.2.2.1 "bad sheet",
    load_data_error_handling.2.2.2 [("Name", [])] ⟨"Job Title", by decide, rfl⟩⟩

end SinchConnector
